import Mathlib

/-!
Shallow embedding of the servo / arm-controller core of the repository
(`arm/servo.py`, `arm/arm_controller.py`).

Modelling conventions:
* Python floats are modelled as rationals (`ℚ`), i.e. idealized real
  arithmetic; the literal `1e-6` of the source is the rational `1/1000000`.
* Python `round` (banker's rounding, half to even) is modelled by `pyRound`.
* The PCA9685 transport (`pwm.set_pulse_width`, `pwm.disable_channel`) is an
  external effect: we record issued commands and sleeps in a trace of events
  (`Ev`), and model a possibly-raising transport by an oracle (`PwmOracle`)
  that says which calls raise; a raised exception is `Except.error ()`.
* Python dicts (`self.servos`, the `angles` argument) are association lists
  in insertion order with unique keys.
-/

/-- Events observable at the boundary of the core: a pulse-width command on a
channel, a `time.sleep`, or a channel-disable command. -/
inductive Ev
  | pulse (channel : ℤ) (width : ℤ)
  | sleep (t : ℚ)
  | disableCh (channel : ℤ)
  deriving Repr, DecidableEq

/-- Which transport calls raise an exception (`set_pulse_width` on a
channel/width pair; `disable_channel` on a channel). -/
structure PwmOracle where
  setFails : ℤ → ℤ → Bool
  disableFails : ℤ → Bool

/-- Decidable equality of `Except` results, so that concrete runs can be
checked by `decide`. -/
instance {e a : Type} [DecidableEq e] [DecidableEq a] : DecidableEq (Except e a)
  | .error x, .error y =>
    match decEq x y with
    | isTrue h => isTrue (by rw [h])
    | isFalse h => isFalse (fun hh => h (by cases hh; rfl))
  | .ok x, .ok y =>
    match decEq x y with
    | isTrue h => isTrue (by rw [h])
    | isFalse h => isFalse (fun hh => h (by cases hh; rfl))
  | .error _, .ok _ => isFalse (fun hh => Except.noConfusion hh)
  | .ok _, .error _ => isFalse (fun hh => Except.noConfusion hh)

/-- The oracle of a transport that never raises (e.g. simulation mode). -/
def noFail : PwmOracle := ⟨fun _ _ => false, fun _ => false⟩

/-- `pwm.set_pulse_width(channel, width)`: either raises or emits the event. -/
def pwmSetPulse (o : PwmOracle) (channel width : ℤ) : Except Unit (List Ev) :=
  if o.setFails channel width then .error () else .ok [Ev.pulse channel width]

/-- `pwm.disable_channel(channel)`: either raises or emits the event. -/
def pwmDisable (o : PwmOracle) (channel : ℤ) : Except Unit (List Ev) :=
  if o.disableFails channel then .error () else .ok [Ev.disableCh channel]

/-- `_clamp(x, lo, hi) = max(lo, min(hi, x))` from `arm/servo.py`. -/
def clampQ (x lo hi : ℚ) : ℚ := max lo (min hi x)

/-- Python `round` on a real value: round half to even (banker's rounding),
as used by `int(round(...))` in `arm/servo.py`. -/
def pyRound (q : ℚ) : ℤ :=
  if q - q.floor < 1/2 then q.floor
  else if 1/2 < q - q.floor then q.floor + 1
  else if q.floor % 2 = 0 then q.floor else q.floor + 1

/-- The `Servo` object of `arm/servo.py`: construction-time configuration plus
the mutable state `_current_angle`, `_target_angle`, `_estimated_position`. -/
structure Servo where
  channel : ℤ
  min_angle : ℚ
  max_angle : ℚ
  home_angle : ℚ
  neutral_angle : ℚ
  min_pulse : ℤ
  max_pulse : ℤ
  invert : Bool
  offset_deg : ℚ
  smooth_hz : ℚ
  continuous : Bool
  stop_pulse : ℤ
  speed_pulse_range : ℤ
  degrees_per_second : ℚ
  min_move_deg : ℚ
  current_angle : Option ℚ
  target_angle : Option ℚ
  estimated_position : ℚ
  deriving Repr, DecidableEq

namespace Servo

/-- `Servo._clamp_angle`. -/
def clamp_angle (s : Servo) (angle : ℚ) : ℚ :=
  if angle < s.min_angle then s.min_angle
  else if angle > s.max_angle then s.max_angle
  else angle

/-- `Servo._apply_calibration`: offset then the position-mode mirror. -/
def apply_calibration (s : Servo) (angle : ℚ) : ℚ :=
  let a := angle + s.offset_deg
  if s.invert then s.max_angle - (a - s.min_angle) else a

/-- `Servo._angle_to_pulse`: linear interpolation of the angle range onto the
pulse range, rounded and re-clamped; midpoint on a degenerate angle range. -/
def angle_to_pulse (s : Servo) (angle : ℚ) : ℤ :=
  if s.max_angle = s.min_angle then
    pyRound (((s.min_pulse : ℚ) + (s.max_pulse : ℚ)) / 2)
  else
    let ratio := (angle - s.min_angle) / (s.max_angle - s.min_angle)
    let ratio := clampQ ratio 0 1
    let pulse := (s.min_pulse : ℚ) + ratio * ((s.max_pulse : ℚ) - (s.min_pulse : ℚ))
    let pulse_i := pyRound pulse
    max s.min_pulse (min s.max_pulse pulse_i)

/-- `Servo._normalize_speed`. -/
def normalize_speed (speed : Option ℚ) : ℚ :=
  match speed with
  | none => 1
  | some s =>
    if s ≤ 0 then 0
    else if s ≤ 1 then s
    else if s ≤ 100 then s / 100
    else 1

/-- `Servo.stop`: issue `stop_pulse` when continuous, no-op otherwise. -/
def stop (o : PwmOracle) (s : Servo) : Except Unit (List Ev) :=
  if s.continuous then pwmSetPulse o s.channel s.stop_pulse else .ok []

/-- `Servo._move_continuous`: open-loop timed move of a continuous servo.
Returns (success flag, updated servo, event trace). -/
def move_continuous (o : PwmOracle) (s : Servo) (target_angle : ℚ)
    (speed : Option ℚ) : Except Unit (Bool × Servo × List Ev) :=
  let target := s.clamp_angle target_angle
  let start_pos := s.estimated_position
  let delta := target - start_pos
  let abs_delta := |delta|
  if abs_delta < s.min_move_deg then
    .ok (true, { s with current_angle := some target, target_angle := some target,
                        estimated_position := target }, [])
  else
    let direction : ℤ := if delta > 0 then 1 else -1
    let direction := if s.invert then -direction else direction
    let speed_factor := normalize_speed speed
    if speed_factor ≤ 0 then do
      let ev ← s.stop o
      .ok (true, s, ev)
    else
      let pulse_offset := max 1 (pyRound ((s.speed_pulse_range : ℚ) * speed_factor))
      let move_pulse := s.stop_pulse + direction * pulse_offset
      let effective_dps := max (1/1000000) (s.degrees_per_second * speed_factor)
      let move_time := abs_delta / effective_dps
      do
        let e1 ← pwmSetPulse o s.channel move_pulse
        let e2 ← pwmSetPulse o s.channel s.stop_pulse
        .ok (true, { s with estimated_position := target, current_angle := some target,
                            target_angle := some target },
             e1 ++ [Ev.sleep move_time] ++ e2)

/-- `Servo.set_angle(angle, validate)`. -/
def set_angle (o : PwmOracle) (s : Servo) (angle : ℚ) (validate : Bool) :
    Except Unit (Bool × Servo × List Ev) :=
  let a := if validate then s.clamp_angle angle else angle
  if s.continuous then s.move_continuous o a none
  else
    let calibrated := s.apply_calibration a
    let pulse := s.angle_to_pulse calibrated
    do
      let ev ← pwmSetPulse o s.channel pulse
      .ok (true, { s with current_angle := some a, target_angle := some a }, ev)

/-- The `for i in range(steps + 1)` loop body of `Servo.move_to` (position
smoothing): issue `set_angle(start + delta * i/steps, validate=False)` at each
sample, sleeping `step_delay` after each non-final sample when blocking. -/
def move_steps (o : PwmOracle) (start delta : ℚ) (steps : ℕ) (step_delay : ℚ)
    (blocking : Bool) : Servo → List ℕ → Except Unit (Servo × List Ev)
  | s, [] => .ok (s, [])
  | s, i :: rest => do
    let t : ℚ := (i : ℚ) / (steps : ℚ)
    let a := start + delta * t
    let (_, s1, e1) ← s.set_angle o a false
    let ev := if blocking ∧ i < steps then e1 ++ [Ev.sleep step_delay] else e1
    let (s2, e2) ← move_steps o start delta steps step_delay blocking s1 rest
    .ok (s2, ev ++ e2)

/-- The position-servo smoothing branch of `Servo.move_to` (the code from
`start = float(self._current_angle)` on), with `target` already clamped, `sp`
the given speed and `cur` the known current angle.  `steps` models
`max(int(move_time * self.smooth_hz), 1)` (for a nonnegative product, Python
`int` truncation is the floor; for a negative one both sides are absorbed by
the `max … 1`). -/
def move_smooth (o : PwmOracle) (s : Servo) (target sp cur : ℚ) (blocking : Bool) :
    Except Unit (Bool × Servo × List Ev) :=
  let start := cur
  let delta := target - start
  if |delta| < 1/2 then
    .ok (true, { s with target_angle := some target, current_angle := some target }, [])
  else
    let speed := max (1/1000000) sp
    let move_time := |delta| / speed
    let steps : ℕ := max (⌊move_time * s.smooth_hz⌋).toNat 1
    let step_delay := move_time / (steps : ℚ)
    do
      let (s1, evs) ← move_steps o start delta steps step_delay blocking s
        (List.range (steps + 1))
      .ok (true, { s1 with current_angle := some target, target_angle := some target }, evs)

/-- `Servo.move_to(angle, speed, blocking)`.  The Python guard
`if speed is None or self._current_angle is None` is modelled by `isNone`
tests; in the remaining branch both options are known present and `getD`
extracts their payloads. -/
def move_to (o : PwmOracle) (s : Servo) (angle : ℚ) (speed : Option ℚ)
    (blocking : Bool) : Except Unit (Bool × Servo × List Ev) :=
  let target := s.clamp_angle angle
  if s.continuous then s.move_continuous o target speed
  else if speed.isNone || s.current_angle.isNone then s.set_angle o target false
  else move_smooth o s target (speed.getD 0) (s.current_angle.getD 0) blocking

/-- `Servo.get_angle`. -/
def get_angle (s : Servo) : Option ℚ :=
  if s.continuous then some s.estimated_position else s.current_angle

/-- `Servo.disable`: disable the channel output. -/
def disable (o : PwmOracle) (s : Servo) : Except Unit (List Ev) :=
  pwmDisable o s.channel

end Servo

/-- `_apply_offset_invert` from `arm/arm_controller.py`: the coordinator-level
calibration transform; its mirror uses the hardcoded constant `180.0`. -/
def apply_offset_invert (angle offset_deg : ℚ) (invert : Bool) : ℚ :=
  let a := angle + offset_deg
  if invert then 180 - a else a

/-- Association-list lookup for the `self.servos` dict (`dict.get`). -/
def lookup_servo : List (String × Servo) → String → Option Servo
  | [], _ => none
  | (n, s) :: rest, name => if n = name then some s else lookup_servo rest name

/-- In-place mutation of the servo object stored under `name` in the dict. -/
def update_servo : List (String × Servo) → String → Servo → List (String × Servo)
  | [], _, _ => []
  | (n, s) :: rest, name, s' =>
    if n = name then (n, s') :: rest else (n, s) :: update_servo rest name s'

/-- The `ArmController` object: the servo dict (in insertion order), the
per-servo calibration-overlay fields stored at construction, the default
speed, and the enabled flag. -/
structure ArmController where
  servos : List (String × Servo)
  default_speed : ℚ
  shoulder_offset : ℚ
  shoulder_invert : Bool
  elbow_offset : ℚ
  elbow_invert : Bool
  gripper_offset : ℚ
  gripper_invert : Bool
  is_enabled : Bool
  deriving Repr, DecidableEq

namespace ArmController

/-- The `if name == "shoulder" ... elif ... elif ...` chain applying the
optional calibration transform in `set_angles` and `move_to_angles`. -/
def calib_transform (c : ArmController) (name : String) (angle : ℚ) : ℚ :=
  if name = "shoulder" then apply_offset_invert angle c.shoulder_offset c.shoulder_invert
  else if name = "elbow" then apply_offset_invert angle c.elbow_offset c.elbow_invert
  else if name = "gripper" then apply_offset_invert angle c.gripper_offset c.gripper_invert
  else angle

/-- The `for name, angle in angles.items()` loop of `ArmController.set_angles`
with its running `ok` flag (`true` so far). -/
def set_angles_go (o : PwmOracle) (validate : Bool) :
    ArmController → List (String × ℚ) → Except Unit (Bool × ArmController × List Ev)
  | c, [] => .ok (true, c, [])
  | c, (name, angle) :: rest =>
    match lookup_servo c.servos name with
    | none => do
      let (_, c2, evs) ← set_angles_go o validate c rest
      .ok (false, c2, evs)
    | some servo => do
      let angle := c.calib_transform name angle
      let (b, s', ev) ← servo.set_angle o angle validate
      let c' := { c with servos := update_servo c.servos name s' }
      let (b2, c2, evs) ← set_angles_go o validate c' rest
      .ok (b && b2, c2, ev ++ evs)

/-- `ArmController.set_angles(angles, validate)`. -/
def set_angles (o : PwmOracle) (c : ArmController) (angles : List (String × ℚ))
    (validate : Bool) : Except Unit (Bool × ArmController × List Ev) :=
  if c.is_enabled = false then .ok (false, c, [])
  else set_angles_go o validate c angles

/-- The first loop of `ArmController.move_to_angles`: resolve each entry,
apply the calibration transform, immediately set servos with unknown current
angle, and accumulate `max_time` and the `moves` list. -/
def plan_go (o : PwmOracle) (speed : ℚ) :
    ArmController → List (String × ℚ) →
    Except Unit (ℚ × List (Servo × String × ℚ × ℚ) × ArmController × List Ev)
  | c, [] => .ok (0, [], c, [])
  | c, (name, target) :: rest =>
    match lookup_servo c.servos name with
    | none => plan_go o speed c rest
    | some servo =>
      let target := c.calib_transform name target
      match servo.get_angle with
      | none => do
        let (_, s', ev) ← servo.set_angle o target true
        let c' := { c with servos := update_servo c.servos name s' }
        let (mt, mv, c2, evs) ← plan_go o speed c' rest
        .ok (mt, mv, c2, ev ++ evs)
      | some current => do
        let delta := |target - current|
        let t := if speed > 0 then delta / speed else 0
        let (mt, mv, c2, evs) ← plan_go o speed c rest
        .ok (max t mt, (servo, name, target, delta) :: mv, c2, evs)

/-- Lines 282–283 of `arm/arm_controller.py`: the per-joint speed derived for
synchronized completion, floored at `1.0`. -/
def servo_speed (speed max_time delta : ℚ) : ℚ :=
  max 1 (if max_time > 0 then delta / max_time else speed)

/-- The `max_time <= 0` branch of `move_to_angles`: immediate `set_angle` for
every planned move. -/
def set_moves (o : PwmOracle) :
    ArmController → List (Servo × String × ℚ × ℚ) → Except Unit (ArmController × List Ev)
  | c, [] => .ok (c, [])
  | c, (servo, name, target, _) :: rest => do
    let (_, s', ev) ← servo.set_angle o target true
    let c' := { c with servos := update_servo c.servos name s' }
    let (c2, evs) ← set_moves o c' rest
    .ok (c2, ev ++ evs)

/-- The final loop of `move_to_angles`: move each planned servo at its derived
`servo_speed`, non-blocking, and-ing the success flags. -/
def exec_moves (o : PwmOracle) (speed max_time : ℚ) :
    ArmController → List (Servo × String × ℚ × ℚ) →
    Except Unit (Bool × ArmController × List Ev)
  | c, [] => .ok (true, c, [])
  | c, (servo, name, target, delta) :: rest => do
    let sp := servo_speed speed max_time delta
    let (b, s', ev) ← servo.move_to o target (some sp) false
    let c' := { c with servos := update_servo c.servos name s' }
    let (b2, c2, evs) ← exec_moves o speed max_time c' rest
    .ok (b && b2, c2, ev ++ evs)

/-- `ArmController.move_to_angles(angles, speed, blocking)`. -/
def move_to_angles (o : PwmOracle) (c : ArmController) (angles : List (String × ℚ))
    (speed : Option ℚ) (blocking : Bool) : Except Unit (Bool × ArmController × List Ev) :=
  if c.is_enabled = false then .ok (false, c, [])
  else
    let speed := match speed with | some s => s | none => c.default_speed
    let speed := max 1 speed
    do
      let (max_time, moves, c1, ev1) ← plan_go o speed c angles
      if moves.isEmpty then .ok (true, c1, ev1)
      else if max_time ≤ 0 then do
        let (c2, ev2) ← set_moves o c1 moves
        .ok (true, c2, ev1 ++ ev2)
      else do
        let (ok, c2, ev2) ← exec_moves o speed max_time c1 moves
        let ev3 := if blocking then [Ev.sleep max_time] else []
        .ok (ok, c2, ev1 ++ ev2 ++ ev3)

/-- The `for servo in self.servos.values(): servo.disable()` loop of
`ArmController.disable`. -/
def disable_go (o : PwmOracle) : List (String × Servo) → Except Unit (List Ev)
  | [] => .ok []
  | (_, s) :: rest => do
    let ev ← s.disable o
    let evs ← disable_go o rest
    .ok (ev ++ evs)

/-- `ArmController.disable`: disable every servo's output, then clear the
enabled flag. -/
def disable (o : PwmOracle) (c : ArmController) : Except Unit (ArmController × List Ev) := do
  let evs ← disable_go o c.servos
  .ok ({ c with is_enabled := false }, evs)

/-- `ArmController.emergency_stop`: the body only calls `self.disable()`. -/
def emergency_stop (o : PwmOracle) (c : ArmController) :
    Except Unit (ArmController × List Ev) :=
  c.disable o

/-- `ArmController.enable`. -/
def enable (c : ArmController) : ArmController := { c with is_enabled := true }

/-- One `Servo(...)` construction call from `ArmController.__init__`
(lines 119–165): only the pwm handle, channel, name, angle range, pulse range
and home/neutral angles are passed; every other field keeps the `Servo`
constructor default (in particular `offset_deg=0.0`, `invert=False`,
`continuous=False`). -/
def build_servo (channel : ℤ) (min_angle max_angle : ℚ) (min_pulse max_pulse : ℤ)
    (home : ℚ) : Servo :=
  { channel := channel
    min_angle := min_angle
    max_angle := max_angle
    home_angle := home
    neutral_angle := home
    min_pulse := min_pulse
    max_pulse := max_pulse
    invert := false
    offset_deg := 0
    smooth_hz := 10
    continuous := false
    stop_pulse := 1500
    speed_pulse_range := 100
    degrees_per_second := 120
    min_move_deg := 1
    current_angle := none
    target_angle := none
    estimated_position := home }

/-- The servo dict built by `ArmController.__init__`, parametrized by the
channel/limit/pulse values read from configuration and calibration. -/
def init_servos (sh_ch el_ch gr_ch : ℤ) (sh_min sh_max sh_home : ℚ)
    (el_min el_max el_home : ℚ) (gr_min gr_max gr_home : ℚ)
    (sh_minp sh_maxp el_minp el_maxp gr_minp gr_maxp : ℤ) : List (String × Servo) :=
  [("shoulder", build_servo sh_ch sh_min sh_max sh_minp sh_maxp sh_home),
   ("elbow", build_servo el_ch el_min el_max el_minp el_maxp el_home),
   ("gripper", build_servo gr_ch gr_min gr_max gr_minp gr_maxp gr_home)]

end ArmController

/-- The spec §3 invariant on a joint's mutable state: the stored
`current_angle` (once set) and `estimated_position` lie within
`[min_angle, max_angle]`. -/
def Servo.state_in_range (s : Servo) : Prop :=
  (∀ a, s.current_angle = some a → s.min_angle ≤ a ∧ a ≤ s.max_angle) ∧
  (s.min_angle ≤ s.estimated_position ∧ s.estimated_position ≤ s.max_angle)

/-! ### Concrete instances used by counterexamples and witnesses -/

/-- A position-mode joint like the arm's shoulder (range 0°–180°, pulses
500–2500 μs), with a known current angle of 0°, `smooth_hz = 1`. -/
def servoPos : Servo :=
  { channel := 0, min_angle := 0, max_angle := 180, home_angle := 0, neutral_angle := 0,
    min_pulse := 500, max_pulse := 2500, invert := false, offset_deg := 0, smooth_hz := 1,
    continuous := false, stop_pulse := 1500, speed_pulse_range := 100,
    degrees_per_second := 120, min_move_deg := 1,
    current_angle := some 0, target_angle := none, estimated_position := 0 }

/-- `servoPos` with a calibration offset of 90°. -/
def servoOff : Servo := { servoPos with offset_deg := 90 }

/-- The continuous-mode joint of the spec's elbow scenario:
`stop_pulse = 1500`, `speed_pulse_range = 100`, `degrees_per_second = 120`,
`min_move_deg = 1`, estimated position 0°. -/
def servoCont : Servo := { servoPos with continuous := true, channel := 1 }

/-- An enabled controller owning the single position joint `"shoulder"`,
with no calibration overlay. -/
def armBase : ArmController :=
  { servos := [("shoulder", servoPos)], default_speed := 50,
    shoulder_offset := 0, shoulder_invert := false,
    elbow_offset := 0, elbow_invert := false,
    gripper_offset := 0, gripper_invert := false, is_enabled := true }

/-- An enabled controller owning one continuous joint `"elbow"` on channel 5. -/
def armCont : ArmController := { armBase with servos := [("elbow", { servoCont with channel := 5 })] }

/-- An enabled controller owning two position joints with known current
angles, for the synchronization claims. -/
def armTwo : ArmController :=
  { armBase with servos := [("x", servoPos), ("y", { servoPos with channel := 1 })] }


/-! ### Arithmetic lemmas about rounding and clamping -/

theorem rat_floor_eq_floor (q : ℚ) : q.floor = ⌊q⌋ := rfl

theorem pyRound_intCast (n : ℤ) : pyRound (n : ℚ) = n := by
  unfold pyRound
  rw [rat_floor_eq_floor]
  norm_num

theorem floor_le_pyRound (q : ℚ) : ⌊q⌋ ≤ pyRound q := by
  unfold pyRound
  rw [rat_floor_eq_floor]
  split_ifs <;> omega

theorem pyRound_le_floor_add_one (q : ℚ) : pyRound q ≤ ⌊q⌋ + 1 := by
  unfold pyRound
  rw [rat_floor_eq_floor]
  split_ifs <;> omega

theorem pyRound_le_ceil (q : ℚ) : pyRound q ≤ ⌈q⌉ := by
  unfold pyRound
  rw [rat_floor_eq_floor]
  split_ifs with h1 h2 h3
  · exact Int.floor_le_ceil q
  · have hq : (⌊q⌋ : ℚ) < q := by linarith
    have := Int.lt_ceil.mpr hq
    omega
  · exact Int.floor_le_ceil q
  · have hq : (⌊q⌋ : ℚ) < q := by linarith
    have := Int.lt_ceil.mpr hq
    omega

theorem pyRound_mono {a b : ℚ} (h : a ≤ b) : pyRound a ≤ pyRound b := by
  rcases lt_or_ge ⌊a⌋ ⌊b⌋ with hf | hf
  · calc pyRound a ≤ ⌊a⌋ + 1 := pyRound_le_floor_add_one a
      _ ≤ ⌊b⌋ := by omega
      _ ≤ pyRound b := floor_le_pyRound b
  · have hfe : ⌊b⌋ = ⌊a⌋ := le_antisymm hf (Int.floor_le_floor h)
    unfold pyRound
    rw [rat_floor_eq_floor, rat_floor_eq_floor, hfe]
    have hab : a - ⌊a⌋ ≤ b - ⌊a⌋ := by linarith
    split_ifs <;> first | omega | linarith

theorem clampQ_mono {lo hi x y : ℚ} (h : x ≤ y) : clampQ x lo hi ≤ clampQ y lo hi :=
  max_le_max le_rfl (min_le_min le_rfl h)

theorem clampQ_bounds {lo hi : ℚ} (hlh : lo ≤ hi) (x : ℚ) :
    lo ≤ clampQ x lo hi ∧ clampQ x lo hi ≤ hi :=
  ⟨le_max_left _ _, max_le hlh (min_le_left _ _)⟩

namespace Servo

theorem clamp_angle_mem (s : Servo) (ha : s.min_angle ≤ s.max_angle) (a : ℚ) :
    s.min_angle ≤ s.clamp_angle a ∧ s.clamp_angle a ≤ s.max_angle := by
  unfold clamp_angle
  split_ifs <;> constructor <;> linarith

theorem clamp_angle_eq_of_mem {s : Servo} {a : ℚ} (h1 : s.min_angle ≤ a)
    (h2 : a ≤ s.max_angle) : s.clamp_angle a = a := by
  unfold clamp_angle
  split_ifs with hlt hgt
  · linarith
  · linarith
  · rfl

theorem angle_to_pulse_bounds (s : Servo) (hp : s.min_pulse ≤ s.max_pulse) (a : ℚ) :
    s.min_pulse ≤ s.angle_to_pulse a ∧ s.angle_to_pulse a ≤ s.max_pulse := by
  unfold angle_to_pulse
  split_ifs with hdeg
  · set q : ℚ := ((s.min_pulse : ℚ) + (s.max_pulse : ℚ)) / 2 with hq
    have h1 : (s.min_pulse : ℚ) ≤ q := by
      rw [hq]; push_cast; linarith [hp, (by exact_mod_cast hp : (s.min_pulse : ℚ) ≤ (s.max_pulse : ℚ))]
    have h2 : q ≤ (s.max_pulse : ℚ) := by
      rw [hq]; push_cast; linarith [(by exact_mod_cast hp : (s.min_pulse : ℚ) ≤ (s.max_pulse : ℚ))]
    constructor
    · exact le_trans (Int.le_floor.mpr h1) (floor_le_pyRound q)
    · exact le_trans (pyRound_le_ceil q) (Int.ceil_le.mpr h2)
  · constructor
    · exact le_max_left _ _
    · exact max_le hp (min_le_left _ _)

theorem angle_to_pulse_mono (s : Servo) (ha : s.min_angle ≤ s.max_angle)
    (hp : s.min_pulse ≤ s.max_pulse) {a1 a2 : ℚ} (h : a1 ≤ a2) :
    s.angle_to_pulse a1 ≤ s.angle_to_pulse a2 := by
  unfold angle_to_pulse
  split_ifs with hdeg
  · exact le_rfl
  · have hlt : s.min_angle < s.max_angle := lt_of_le_of_ne ha (fun e => hdeg e.symm)
    have hden : (0 : ℚ) < s.max_angle - s.min_angle := by linarith
    have hr : (a1 - s.min_angle) / (s.max_angle - s.min_angle)
        ≤ (a2 - s.min_angle) / (s.max_angle - s.min_angle) := by
      apply div_le_div_of_nonneg_right ?_ hden.le <;> linarith
    have hc : clampQ ((a1 - s.min_angle) / (s.max_angle - s.min_angle)) 0 1
        ≤ clampQ ((a2 - s.min_angle) / (s.max_angle - s.min_angle)) 0 1 := clampQ_mono hr
    have hD : (0 : ℚ) ≤ (s.max_pulse : ℚ) - (s.min_pulse : ℚ) := by
      have : (s.min_pulse : ℚ) ≤ (s.max_pulse : ℚ) := by exact_mod_cast hp
      linarith
    have hpul : (s.min_pulse : ℚ) + clampQ ((a1 - s.min_angle) / (s.max_angle - s.min_angle)) 0 1
          * ((s.max_pulse : ℚ) - (s.min_pulse : ℚ))
        ≤ (s.min_pulse : ℚ) + clampQ ((a2 - s.min_angle) / (s.max_angle - s.min_angle)) 0 1
          * ((s.max_pulse : ℚ) - (s.min_pulse : ℚ)) := by
      have := mul_le_mul_of_nonneg_right hc hD
      linarith
    exact max_le_max le_rfl (min_le_min le_rfl (pyRound_mono hpul))

end Servo

/-! ### Lemmas about the Except effect layer -/

theorem except_ok_bind {α β : Type} (a : α) (f : α → Except Unit β) :
    (Except.ok a >>= f) = f a := rfl

theorem except_error_bind {α β : Type} (f : α → Except Unit β) :
    ((Except.error () : Except Unit α) >>= f) = .error () := rfl

theorem except_bind_eq_ok {α β : Type} {x : Except Unit α} {f : α → Except Unit β}
    {b : β} (h : (x >>= f) = .ok b) : ∃ a, x = .ok a ∧ f a = .ok b := by
  cases x with
  | error e => rw [show ((Except.error e : Except Unit α) >>= f) = .error e from rfl] at h; cases h
  | ok a => exact ⟨a, rfl, h⟩

/-! ### Success flags of the Servo operations -/

namespace Servo

theorem move_continuous_ok_true {o : PwmOracle} {s : Servo} {t : ℚ} {sp : Option ℚ}
    {r : Bool × Servo × List Ev} (h : s.move_continuous o t sp = .ok r) : r.1 = true := by
  simp only [Servo.move_continuous, Servo.stop, pwmSetPulse] at h
  split_ifs at h
  all_goals try simp only [except_ok_bind, except_error_bind] at h
  all_goals try (cases h; rfl)
  all_goals simp at h

theorem set_angle_ok_true {o : PwmOracle} {s : Servo} {a : ℚ} {v : Bool}
    {r : Bool × Servo × List Ev} (h : s.set_angle o a v = .ok r) : r.1 = true := by
  by_cases hc : s.continuous = true
  · simp only [Servo.set_angle, hc, if_true] at h
    exact move_continuous_ok_true h
  · simp only [Servo.set_angle, pwmSetPulse] at h
    rw [if_neg hc] at h
    split at h
    all_goals split at h
    all_goals first
      | (cases h; rfl)
      | (cases h.symm; rfl)
      | exact Except.noConfusion h
      | exact Except.noConfusion h.symm

theorem move_smooth_ok_true {o : PwmOracle} {s : Servo} {target sp cur : ℚ} {bl : Bool}
    {r : Bool × Servo × List Ev} (h : move_smooth o s target sp cur bl = .ok r) :
    r.1 = true := by
  simp only [Servo.move_smooth] at h
  split_ifs at h
  · cases h
    rfl
  · obtain ⟨⟨s1, evs⟩, hms, hok⟩ := except_bind_eq_ok h
    cases hok
    rfl

theorem move_to_ok_true {o : PwmOracle} {s : Servo} {a : ℚ} {sp : Option ℚ} {bl : Bool}
    {r : Bool × Servo × List Ev} (h : s.move_to o a sp bl = .ok r) : r.1 = true := by
  simp only [Servo.move_to] at h
  split_ifs at h
  · exact move_continuous_ok_true h
  · exact set_angle_ok_true h
  · exact move_smooth_ok_true h

end Servo

/-! ### State-range invariant of the Servo operations -/

namespace Servo

theorem move_continuous_preserves {o : PwmOracle} {s : Servo} {t : ℚ} {sp : Option ℚ}
    {r : Bool × Servo × List Ev} (ha : s.min_angle ≤ s.max_angle)
    (hinv : s.state_in_range) (h : s.move_continuous o t sp = .ok r) :
    r.2.1.state_in_range := by
  have hcl := clamp_angle_mem s ha t
  simp only [Servo.move_continuous, Servo.stop, pwmSetPulse] at h
  split_ifs at h
  all_goals try simp only [except_ok_bind, except_error_bind] at h
  all_goals try (first | cases h | cases h.symm
                       | exact Except.noConfusion h | exact Except.noConfusion h.symm)
  all_goals first
    | exact hinv
    | exact ⟨fun a' ha' => by injection ha' with hh; subst hh; exact hcl, hcl.1, hcl.2⟩

theorem set_angle_fields {o : PwmOracle} {s : Servo} {a : ℚ} {v : Bool}
    {r : Bool × Servo × List Ev} (hc : s.continuous = false)
    (h : s.set_angle o a v = .ok r) :
    r.2.1 = { s with current_angle := some (if v then s.clamp_angle a else a),
                     target_angle := some (if v then s.clamp_angle a else a) } := by
  simp only [Servo.set_angle, pwmSetPulse] at h
  rw [if_neg (by simp [hc] : ¬s.continuous = true)] at h
  split at h
  all_goals split at h
  all_goals try (first | cases h | cases h.symm
                       | exact Except.noConfusion h | exact Except.noConfusion h.symm)
  all_goals simp_all

theorem set_angle_true_preserves {o : PwmOracle} {s : Servo} {a : ℚ}
    {r : Bool × Servo × List Ev} (ha : s.min_angle ≤ s.max_angle)
    (hinv : s.state_in_range) (h : s.set_angle o a true = .ok r) :
    r.2.1.state_in_range := by
  have hcl := clamp_angle_mem s ha a
  by_cases hc : s.continuous = true
  · simp only [Servo.set_angle, hc, if_true] at h
    exact move_continuous_preserves ha hinv h
  · have hs := set_angle_fields (by simpa using hc) h
    rw [hs]
    simp only [if_true]
    exact ⟨fun a' ha' => by injection ha' with hh; subst hh; exact hcl, hinv.2⟩

theorem move_steps_fields {o : PwmOracle} {st d : ℚ} {n : ℕ} {sd : ℚ} {bl : Bool} :
    ∀ (l : List ℕ) (s s2 : Servo) (ev : List Ev),
    s.continuous = false → move_steps o st d n sd bl s l = .ok (s2, ev) →
    s2.min_angle = s.min_angle ∧ s2.max_angle = s.max_angle ∧
    s2.estimated_position = s.estimated_position ∧ s2.continuous = false := by
  intro l
  induction l with
  | nil =>
    intro s s2 ev hc h
    simp only [move_steps] at h
    cases h
    exact ⟨rfl, rfl, rfl, hc⟩
  | cons i rest ih =>
    intro s s2 ev hc h
    simp only [move_steps] at h
    obtain ⟨⟨b1, s1, e1⟩, hsa, h2⟩ := except_bind_eq_ok h
    obtain ⟨⟨s2', e2⟩, hms, h3⟩ := except_bind_eq_ok h2
    cases h3
    have hf1 := set_angle_fields hc hsa
    replace hf1 : s1 = _ := hf1
    have hc1 : s1.continuous = false := by rw [hf1]; exact hc
    obtain ⟨e1, e2, e3, e4⟩ := ih s1 s2' e2 hc1 hms
    rw [hf1] at e1 e2 e3
    exact ⟨e1, e2, e3, e4⟩

theorem move_smooth_preserves {o : PwmOracle} {s : Servo} {target sp cur : ℚ} {bl : Bool}
    {r : Bool × Servo × List Ev} (hc : s.continuous = false)
    (ht : s.min_angle ≤ target ∧ target ≤ s.max_angle)
    (hinv : s.state_in_range) (h : move_smooth o s target sp cur bl = .ok r) :
    r.2.1.state_in_range := by
  simp only [Servo.move_smooth] at h
  split_ifs at h
  · cases h
    exact ⟨fun a' ha' => by injection ha' with hh; subst hh; exact ht, hinv.2⟩
  · obtain ⟨⟨s1, evs⟩, hms, hok⟩ := except_bind_eq_ok h
    cases hok
    obtain ⟨e1, e2, e3, _⟩ := move_steps_fields _ s s1 evs hc hms
    refine ⟨fun a' ha' => by injection ha' with hh; subst hh; simpa [e1, e2] using ht, ?_⟩
    show s1.min_angle ≤ s1.estimated_position ∧ s1.estimated_position ≤ s1.max_angle
    rw [e1, e2, e3]
    exact hinv.2

theorem move_to_preserves {o : PwmOracle} {s : Servo} {a : ℚ} {sp : Option ℚ} {bl : Bool}
    {r : Bool × Servo × List Ev} (ha : s.min_angle ≤ s.max_angle)
    (hinv : s.state_in_range) (h : s.move_to o a sp bl = .ok r) :
    r.2.1.state_in_range := by
  have hcl := clamp_angle_mem s ha a
  simp only [Servo.move_to] at h
  split_ifs at h with h1 h2
  · exact move_continuous_preserves ha hinv h
  · have hc : s.continuous = false := by simpa using h1
    have hs := set_angle_fields hc h
    rw [hs]
    simp only [Bool.false_eq_true, if_false]
    exact ⟨fun a' ha' => by injection ha' with hh; subst hh; exact hcl, hinv.2⟩
  · exact move_smooth_preserves (by simpa using h1) hcl hinv h

end Servo

namespace Servo

theorem set_angle_trace {o : PwmOracle} {s : Servo} {a : ℚ} {v : Bool}
    {r : Bool × Servo × List Ev} (hc : s.continuous = false)
    (h : s.set_angle o a v = .ok r) :
    r.2.2 = [Ev.pulse s.channel
      (s.angle_to_pulse (s.apply_calibration (if v then s.clamp_angle a else a)))] := by
  simp only [Servo.set_angle, pwmSetPulse] at h
  rw [if_neg (by simp [hc] : ¬s.continuous = true)] at h
  split at h
  all_goals split at h
  all_goals try (first | cases h | cases h.symm
                       | exact Except.noConfusion h | exact Except.noConfusion h.symm)
  all_goals simp_all

theorem set_angle_noFail (s : Servo) (a : ℚ) (v : Bool) (hc : s.continuous = false) :
    s.set_angle noFail a v = .ok (true,
      { s with current_angle := some (if v then s.clamp_angle a else a),
               target_angle := some (if v then s.clamp_angle a else a) },
      [Ev.pulse s.channel
        (s.angle_to_pulse (s.apply_calibration (if v then s.clamp_angle a else a)))]) := by
  simp only [Servo.set_angle, pwmSetPulse, noFail]
  rw [if_neg (by simp [hc] : ¬s.continuous = true)]
  rfl

theorem angle_to_pulse_at_min (s : Servo) (ha : s.min_angle < s.max_angle)
    (hp : s.min_pulse ≤ s.max_pulse) : s.angle_to_pulse s.min_angle = s.min_pulse := by
  have hne : ¬(s.max_angle = s.min_angle) := fun e => absurd e (ne_of_gt ha)
  simp only [angle_to_pulse, hne, if_false, sub_self, zero_div]
  have hcl : clampQ 0 0 1 = 0 := by norm_num [clampQ]
  rw [hcl, zero_mul, add_zero, pyRound_intCast]
  omega

theorem angle_to_pulse_at_max (s : Servo) (ha : s.min_angle < s.max_angle)
    (hp : s.min_pulse ≤ s.max_pulse) : s.angle_to_pulse s.max_angle = s.max_pulse := by
  have hne : ¬(s.max_angle = s.min_angle) := fun e => absurd e (ne_of_gt ha)
  simp only [angle_to_pulse, hne, if_false]
  have hr : (s.max_angle - s.min_angle) / (s.max_angle - s.min_angle) = 1 :=
    div_self (by linarith)
  rw [hr]
  have hcl : clampQ 1 0 1 = 1 := by norm_num [clampQ]
  rw [hcl, one_mul]
  have : (s.min_pulse : ℚ) + ((s.max_pulse : ℚ) - (s.min_pulse : ℚ)) = ((s.max_pulse : ℤ) : ℚ) := by
    push_cast
    ring
  rw [this, pyRound_intCast]
  omega

end Servo

/-- C3 (counterexample): on the position joint `servoPos` with range
`[0°, 180°]`, `set_angle(200, validate=false)` succeeds and stores
`current_angle = 200`, outside the configured range — so the invariant does
not hold for `set_angle` with `validate=false`. -/
theorem C3_counterexample :
    (Servo.set_angle noFail servoPos 200 false).map (fun r => r.2.1.current_angle)
      = .ok (some 200) ∧
    servoPos.max_angle = 180 ∧ ¬((200 : ℚ) ≤ 180) := by
  refine ⟨by rfl, rfl, by norm_num⟩

/-- C3 (amended): after any update performed by `set_angle` with
`validate=true`, by `move_to`, or by the continuous timed move, the stored
`current_angle` (once set) and `estimated_position` lie within
`[min_angle, max_angle]`, provided the state satisfied that range invariant
before the call; with `validate=false`, `set_angle` stores the raw angle,
which can lie outside the range. -/
theorem C3_amended_state_in_range (s : Servo) (ha : s.min_angle ≤ s.max_angle)
    (hinv : s.state_in_range) :
    (∀ (o : PwmOracle) (a : ℚ) (r : Bool × Servo × List Ev),
       s.set_angle o a true = .ok r → r.2.1.state_in_range) ∧
    (∀ (o : PwmOracle) (a : ℚ) (sp : Option ℚ) (bl : Bool) (r : Bool × Servo × List Ev),
       s.move_to o a sp bl = .ok r → r.2.1.state_in_range) ∧
    (∀ (o : PwmOracle) (a : ℚ) (sp : Option ℚ) (r : Bool × Servo × List Ev),
       s.move_continuous o a sp = .ok r → r.2.1.state_in_range) :=
  ⟨fun _ _ _ h => Servo.set_angle_true_preserves ha hinv h,
   fun _ _ _ _ _ h => Servo.move_to_preserves ha hinv h,
   fun _ _ _ _ h => Servo.move_continuous_preserves ha hinv h⟩

/-- Witness for C3: the amended invariant at a concrete call,
`set_angle(300, validate=true)` on `servoPos`, whose result state clamps to
`180` and stays in range. -/
theorem C3_amended_witness :
    Servo.state_in_range
      { servoPos with current_angle := some 180, target_angle := some 180 } := by
  have ha : servoPos.min_angle ≤ servoPos.max_angle := by norm_num [servoPos]
  have hinv : Servo.state_in_range servoPos := by
    refine ⟨fun a hha => ?_, by norm_num [servoPos]⟩
    have h0 : (some (0 : ℚ)) = some a := hha
    injection h0 with hh
    subst hh
    norm_num [servoPos]
  have hcl : servoPos.clamp_angle 300 = 180 := by decide
  have e := Servo.set_angle_noFail servoPos 300 true (by rfl)
  rw [if_pos rfl, hcl] at e
  exact (C3_amended_state_in_range servoPos ha hinv).1 noFail 300 _ e

/-- C4: for any angle below `min_angle` (resp. above `max_angle`),
`clamp_angle` returns that nearest bound, and every pulse event issued by
`set_angle(angle, validate=true)` on a position joint lies within
`[min_pulse, max_pulse]`. -/
theorem C4_clamp_and_pulse_bounds (s : Servo) (ha : s.min_angle ≤ s.max_angle)
    (hp : s.min_pulse ≤ s.max_pulse) (hc : s.continuous = false) (a : ℚ) :
    (a < s.min_angle → s.clamp_angle a = s.min_angle) ∧
    (a > s.max_angle → s.clamp_angle a = s.max_angle) ∧
    (∀ (o : PwmOracle) (r : Bool × Servo × List Ev), s.set_angle o a true = .ok r →
      ∀ ch w, Ev.pulse ch w ∈ r.2.2 → s.min_pulse ≤ w ∧ w ≤ s.max_pulse) := by
  refine ⟨?_, ?_, ?_⟩
  · intro h
    unfold Servo.clamp_angle
    rw [if_pos h]
  · intro h
    unfold Servo.clamp_angle
    rw [if_neg (by linarith), if_pos h]
  · intro o r h ch w hw
    rw [Servo.set_angle_trace hc h] at hw
    simp only [List.mem_singleton] at hw
    injection hw with h1 h2
    subst h2
    exact Servo.angle_to_pulse_bounds s hp _

/-- Witness for C4 at a concrete out-of-range input: on `servoPos`,
`clamp_angle 200 = 180` and the pulse issued by `set_angle(200, true)` is
`2500`, within `[500, 2500]`. -/
theorem C4_witness :
    Servo.clamp_angle servoPos 200 = 180 ∧
    (servoPos.min_pulse ≤ 2500 ∧ 2500 ≤ servoPos.max_pulse) := by
  have hmain := C4_clamp_and_pulse_bounds servoPos (by norm_num [servoPos])
    (by norm_num [servoPos]) (by rfl) 200
  have hcl : servoPos.clamp_angle 200 = 180 := by decide
  refine ⟨hcl, ?_⟩
  have e := Servo.set_angle_noFail servoPos 200 true (by rfl)
  rw [if_pos rfl, hcl] at e
  have hcal : servoPos.apply_calibration 180 = 180 := by
    simp [Servo.apply_calibration]
    norm_num [servoPos]
  have hpul : servoPos.angle_to_pulse 180 = 2500 := by
    have h1 : servoPos.max_angle = 180 := rfl
    have h2 : servoPos.max_pulse = 2500 := rfl
    rw [← h1, ← h2]
    exact Servo.angle_to_pulse_at_max servoPos (by norm_num [servoPos]) (by norm_num [servoPos])
  rw [hcal, hpul] at e
  exact hmain.2.2 noFail _ e 0 2500 (List.mem_singleton.mpr rfl)

/-- C7: for a position joint with `min_angle ≤ max_angle` and
`min_pulse ≤ max_pulse`, the composed calibration-and-interpolation map is
monotone in the logical angle — nondecreasing when `invert` is false and
nonincreasing when `invert` is true. -/
theorem C7_pulse_monotone (s : Servo) (hc : s.continuous = false)
    (ha : s.min_angle ≤ s.max_angle) (hp : s.min_pulse ≤ s.max_pulse)
    (a1 a2 : ℚ) (h : a1 < a2) :
    (s.invert = false →
      s.angle_to_pulse (s.apply_calibration a1) ≤ s.angle_to_pulse (s.apply_calibration a2)) ∧
    (s.invert = true →
      s.angle_to_pulse (s.apply_calibration a2) ≤ s.angle_to_pulse (s.apply_calibration a1)) := by
  constructor <;> intro hi
  · apply Servo.angle_to_pulse_mono s ha hp
    simp only [Servo.apply_calibration, hi, Bool.false_eq_true, if_false]
    linarith
  · apply Servo.angle_to_pulse_mono s ha hp
    simp only [Servo.apply_calibration, hi, if_true]
    linarith

/-- Witness for C7 at concrete angles 10° < 20°, on `servoPos` and its
inverted variant. -/
theorem C7_witness :
    servoPos.angle_to_pulse (servoPos.apply_calibration 10)
      ≤ servoPos.angle_to_pulse (servoPos.apply_calibration 20) ∧
    ({ servoPos with invert := true }).angle_to_pulse
        (({ servoPos with invert := true }).apply_calibration 20)
      ≤ ({ servoPos with invert := true }).angle_to_pulse
        (({ servoPos with invert := true }).apply_calibration 10) :=
  ⟨(C7_pulse_monotone servoPos (by rfl) (by norm_num [servoPos]) (by norm_num [servoPos])
      10 20 (by norm_num)).1 (by rfl),
   (C7_pulse_monotone { servoPos with invert := true } (by rfl) (by norm_num [servoPos])
      (by norm_num [servoPos]) 10 20 (by norm_num)).2 (by rfl)⟩

/-- C8 (counterexample): the claim fails for a joint whose calibration offset
is nonzero: on `servoOff` (offset 90°, no invert, range `[0°, 180°]`, pulses
`[500, 2500]`), mapping `min_angle` yields pulse `1500`, not
`min_pulse = 500`. -/
theorem C8_counterexample :
    servoOff.offset_deg = 90 ∧ servoOff.invert = false ∧
    servoOff.angle_to_pulse (servoOff.apply_calibration servoOff.min_angle) = 1500 ∧
    servoOff.min_pulse = 500 := by
  have hcal : servoOff.apply_calibration servoOff.min_angle = 90 := by
    simp only [Servo.apply_calibration]
    norm_num [servoOff, servoPos]
  have hne : ¬(servoOff.max_angle = servoOff.min_angle) := by norm_num [servoOff, servoPos]
  have hpul : servoOff.angle_to_pulse 90 = 1500 := by
    simp only [Servo.angle_to_pulse, hne, if_false]
    have h1 : ((90 : ℚ) - servoOff.min_angle) / (servoOff.max_angle - servoOff.min_angle)
        = 1/2 := by norm_num [servoOff, servoPos]
    rw [h1]
    have h2 : clampQ (1/2) 0 1 = 1/2 := by norm_num [clampQ]
    rw [h2]
    have h3 : (servoOff.min_pulse : ℚ) + 1/2 * ((servoOff.max_pulse : ℚ) - (servoOff.min_pulse : ℚ))
        = ((1500 : ℤ) : ℚ) := by norm_num [servoOff, servoPos]
    rw [h3, pyRound_intCast]
    norm_num [servoOff, servoPos]
  exact ⟨rfl, rfl, by rw [hcal, hpul], rfl⟩

/-- C8 (amended): for a position joint with `offset_deg = 0`,
`min_angle < max_angle` and `min_pulse ≤ max_pulse`, mapping `min_angle`
through calibration and interpolation yields exactly `min_pulse` and mapping
`max_angle` yields exactly `max_pulse`; with `invert` set the two endpoint
pulses are swapped. -/
theorem C8_amended_endpoints (s : Servo) (hc : s.continuous = false)
    (hoff : s.offset_deg = 0) (ha : s.min_angle < s.max_angle)
    (hp : s.min_pulse ≤ s.max_pulse) :
    (s.invert = false →
       s.angle_to_pulse (s.apply_calibration s.min_angle) = s.min_pulse ∧
       s.angle_to_pulse (s.apply_calibration s.max_angle) = s.max_pulse) ∧
    (s.invert = true →
       s.angle_to_pulse (s.apply_calibration s.min_angle) = s.max_pulse ∧
       s.angle_to_pulse (s.apply_calibration s.max_angle) = s.min_pulse) := by
  constructor <;> intro hi
  · constructor
    · have e : s.apply_calibration s.min_angle = s.min_angle := by
        simp [Servo.apply_calibration, hi, hoff]
      rw [e, Servo.angle_to_pulse_at_min s ha hp]
    · have e : s.apply_calibration s.max_angle = s.max_angle := by
        simp [Servo.apply_calibration, hi, hoff]
      rw [e, Servo.angle_to_pulse_at_max s ha hp]
  · constructor
    · have e : s.apply_calibration s.min_angle = s.max_angle := by
        simp [Servo.apply_calibration, hi, hoff]
      rw [e, Servo.angle_to_pulse_at_max s ha hp]
    · have e : s.apply_calibration s.max_angle = s.min_angle := by
        simp only [Servo.apply_calibration, hi, hoff, if_true]
        ring
      rw [e, Servo.angle_to_pulse_at_min s ha hp]

/-- Witness for C8 (amended) on `servoPos`: the endpoint pulses are exactly
500 and 2500. -/
theorem C8_amended_witness :
    servoPos.angle_to_pulse (servoPos.apply_calibration servoPos.min_angle) = 500 ∧
    servoPos.angle_to_pulse (servoPos.apply_calibration servoPos.max_angle) = 2500 := by
  have h := (C8_amended_endpoints servoPos (by rfl) (by rfl) (by norm_num [servoPos])
    (by norm_num [servoPos])).1 (by rfl)
  simpa [servoPos] using h

/-- C6: for a continuous-mode, non-inverted joint whose in-range target
differs from `estimated_position` by at least `min_move_deg`, a move at speed
factor 1.0 issues the drive pulse `stop_pulse + speed_pulse_range` (minus for
a negative delta), sleeps `|delta| / degrees_per_second`, then issues
`stop_pulse`, and sets `estimated_position` (and `current_angle`) to the
target, whatever the sign of the delta. -/
theorem C6_continuous_timed_move (o : PwmOracle) (s : Servo) (target : ℚ) (sp : Option ℚ)
    (hcont : s.continuous = true) (hinv : s.invert = false)
    (hlo : s.min_angle ≤ target) (hhi : target ≤ s.max_angle)
    (hdelta : s.min_move_deg ≤ |target - s.estimated_position|)
    (hmm : 0 < s.min_move_deg)
    (hsp : Servo.normalize_speed sp = 1)
    (hspr : 1 ≤ s.speed_pulse_range)
    (hdps : 1/1000000 ≤ s.degrees_per_second)
    (hok1 : o.setFails s.channel (s.stop_pulse +
      (if 0 < target - s.estimated_position then 1 else -1) * s.speed_pulse_range) = false)
    (hok2 : o.setFails s.channel s.stop_pulse = false) :
    s.move_continuous o target sp = .ok (true,
      { s with estimated_position := target, current_angle := some target,
               target_angle := some target },
      [Ev.pulse s.channel (s.stop_pulse +
         (if 0 < target - s.estimated_position then 1 else -1) * s.speed_pulse_range),
       Ev.sleep (|target - s.estimated_position| / s.degrees_per_second),
       Ev.pulse s.channel s.stop_pulse]) := by
  have hcl : s.clamp_angle target = target := Servo.clamp_angle_eq_of_mem hlo hhi
  simp only [Servo.move_continuous, hcl]
  rw [if_neg (not_lt.mpr hdelta)]
  simp only [hsp, hinv, Bool.false_eq_true, if_false, mul_one]
  rw [if_neg (by norm_num : ¬((1:ℚ) ≤ 0))]
  rw [pyRound_intCast, max_eq_right hspr, max_eq_right hdps]
  simp only [pwmSetPulse, hok1, hok2, Bool.false_eq_true, if_false]
  rfl

/-- Witness for C6: the spec's elbow scenario — `stop_pulse=1500`,
`speed_pulse_range=100`, `degrees_per_second=120`, `min_move_deg=1`;
`move_to(90, speed=100)` from `estimated_position=0` issues pulse 1600,
sleeps 0.75 s, issues 1500, and the estimated position becomes 90. -/
theorem C6_witness :
    Servo.normalize_speed (some 100) = 1 ∧
    servoCont.move_continuous noFail 90 (some 100) = .ok (true,
      { servoCont with estimated_position := 90, current_angle := some 90,
                       target_angle := some 90 },
      [Ev.pulse 1 1600, Ev.sleep (3/4), Ev.pulse 1 1500]) := by
  have hsp : Servo.normalize_speed (some 100) = 1 := by
    simp only [Servo.normalize_speed]
    norm_num
  refine ⟨hsp, ?_⟩
  have h := C6_continuous_timed_move noFail servoCont 90 (some 100) rfl rfl
    (by norm_num [servoCont, servoPos]) (by norm_num [servoCont, servoPos])
    (by norm_num [servoCont, servoPos]) (by norm_num [servoCont, servoPos]) hsp
    (by norm_num [servoCont, servoPos]) (by norm_num [servoCont, servoPos]) rfl rfl
  rw [h]
  norm_num [servoCont, servoPos]

/-- C9: the coordinator-level invert transform uses the hardcoded constant
`180.0`, and every `Servo` constructed by `ArmController.__init__` keeps the
constructor defaults `offset_deg = 0` and `invert = false`, so its own
`_apply_calibration` is the identity — the coordinator transform is the only
calibration transform applied. -/
theorem C9_coordinator_invert :
    (∀ angle off : ℚ, apply_offset_invert angle off true = 180 - (angle + off)) ∧
    (∀ (sh_ch el_ch gr_ch : ℤ) (sh_min sh_max sh_home el_min el_max el_home
        gr_min gr_max gr_home : ℚ) (sh_minp sh_maxp el_minp el_maxp gr_minp gr_maxp : ℤ),
      ∀ p ∈ ArmController.init_servos sh_ch el_ch gr_ch sh_min sh_max sh_home
          el_min el_max el_home gr_min gr_max gr_home
          sh_minp sh_maxp el_minp el_maxp gr_minp gr_maxp,
        p.2.offset_deg = 0 ∧ p.2.invert = false ∧
        ∀ a : ℚ, p.2.apply_calibration a = a) := by
  constructor
  · intro angle off
    rfl
  · intro sh_ch el_ch gr_ch sh_min sh_max sh_home el_min el_max el_home
      gr_min gr_max gr_home sh_minp sh_maxp el_minp el_maxp gr_minp gr_maxp p hp
    simp only [ArmController.init_servos, List.mem_cons, List.not_mem_nil, or_false] at hp
    rcases hp with h | h | h <;> subst h <;>
      exact ⟨rfl, rfl, fun a => by
        simp [Servo.apply_calibration, ArmController.build_servo]⟩

/-- Witness for C9: concrete instances — the invert transform maps 30° to
150° via the constant 180, and a concretely constructed shoulder servo has
zero offset, no invert, and an identity servo-level calibration. -/
theorem C9_witness :
    apply_offset_invert 30 0 true = 150 ∧
    (ArmController.build_servo 0 0 180 500 2500 0).offset_deg = 0 ∧
    (ArmController.build_servo 0 0 180 500 2500 0).invert = false ∧
    (ArmController.build_servo 0 0 180 500 2500 0).apply_calibration 7 = 7 := by
  have h1 := C9_coordinator_invert.1 30 0
  have h2 := C9_coordinator_invert.2 0 1 2 0 180 0 0 90 0 0 90 0 500 2500 500 2500 500 2500
    ("shoulder", ArmController.build_servo 0 0 180 500 2500 0)
    (by simp [ArmController.init_servos])
  exact ⟨by rw [h1]; norm_num, h2.1, h2.2.1, h2.2.2 7⟩

namespace ArmController

theorem lookup_servo_update (l : List (String × Servo)) (name : String) (s' : Servo)
    (m : String) :
    (lookup_servo (update_servo l name s') m).isSome = (lookup_servo l m).isSome := by
  induction l with
  | nil => rfl
  | cons p rest ih =>
    obtain ⟨n, s⟩ := p
    by_cases h1 : n = name
    · simp only [update_servo, if_pos h1, lookup_servo]
      by_cases h2 : n = m
      · simp [h2]
      · simp [h2]
    · simp only [update_servo, if_neg h1, lookup_servo]
      by_cases h2 : n = m
      · simp [h2]
      · simp [h2, ih]

theorem lookup_servo_update_none {l : List (String × Servo)} {name : String} {s' : Servo}
    {m : String} (h : lookup_servo (update_servo l name s') m = none) :
    lookup_servo l m = none := by
  have hs := lookup_servo_update l name s' m
  rw [h] at hs
  cases hx : lookup_servo l m with
  | none => rfl
  | some s => rw [hx] at hs; simp at hs

theorem set_angles_go_false {o : PwmOracle} {v : Bool} :
    ∀ (angles : List (String × ℚ)) (c : ArmController) (r : Bool × ArmController × List Ev),
    set_angles_go o v c angles = .ok r → r.1 = false →
    ∃ p ∈ angles, lookup_servo c.servos p.1 = none := by
  intro angles
  induction angles with
  | nil =>
    intro c r h hf
    simp only [set_angles_go] at h
    cases h
    cases hf
  | cons p rest ih =>
    obtain ⟨name, angle⟩ := p
    intro c r h hf
    simp only [set_angles_go] at h
    split at h
    · obtain ⟨⟨b2, c2, evs⟩, hgo, h2⟩ := except_bind_eq_ok h
      cases h2
      exact ⟨(name, angle), List.mem_cons_self _ _, by assumption⟩
    · obtain ⟨⟨b, s', ev⟩, hsa, h2⟩ := except_bind_eq_ok h
      obtain ⟨⟨b2, c2, evs⟩, hgo, h3⟩ := except_bind_eq_ok h2
      cases h3
      have hb : b = true := Servo.set_angle_ok_true hsa
      subst hb
      simp only [Bool.true_and] at hf
      obtain ⟨q, hq, hnone⟩ := ih _ _ hgo hf
      exact ⟨q, List.mem_cons_of_mem _ hq, lookup_servo_update_none hnone⟩

theorem disable_go_map {o : PwmOracle} :
    ∀ (l : List (String × Servo)), (∀ p ∈ l, o.disableFails p.2.channel = false) →
    disable_go o l = .ok (l.map (fun p => Ev.disableCh p.2.channel)) := by
  intro l
  induction l with
  | nil => intro _; rfl
  | cons p rest ih =>
    intro h
    obtain ⟨n, s⟩ := p
    have hp : o.disableFails s.channel = false := h (n, s) (List.mem_cons_self _ _)
    simp only [disable_go, Servo.disable, pwmDisable, hp, Bool.false_eq_true, if_false,
      except_ok_bind]
    rw [ih (fun q hq => h q (List.mem_cons_of_mem _ hq))]
    rfl

end ArmController

/-- C10: `Servo.set_angle` and `Servo.move_to` return `True` on every
execution that does not raise; consequently `ArmController.set_angles` can
return an `ok false` only when the arm is disabled or some requested joint
name is unknown — a transport failure surfaces as a raised exception
(`Except.error`), never as a `false` return. -/
theorem C10_success_flags :
    (∀ (o : PwmOracle) (s : Servo) (a : ℚ) (v : Bool) (r : Bool × Servo × List Ev),
       s.set_angle o a v = .ok r → r.1 = true) ∧
    (∀ (o : PwmOracle) (s : Servo) (a : ℚ) (sp : Option ℚ) (bl : Bool)
       (r : Bool × Servo × List Ev), s.move_to o a sp bl = .ok r → r.1 = true) ∧
    (∀ (o : PwmOracle) (c : ArmController) (angles : List (String × ℚ)) (v : Bool)
       (r : Bool × ArmController × List Ev),
       c.set_angles o angles v = .ok r → r.1 = false →
       c.is_enabled = false ∨ ∃ p ∈ angles, lookup_servo c.servos p.1 = none) := by
  refine ⟨fun _ _ _ _ _ h => Servo.set_angle_ok_true h,
          fun _ _ _ _ _ _ h => Servo.move_to_ok_true h, ?_⟩
  intro o c angles v r h hf
  by_cases he : c.is_enabled = false
  · exact Or.inl he
  · right
    simp only [ArmController.set_angles, he, Bool.false_eq_true, if_false] at h
    exact ArmController.set_angles_go_false angles c r h hf

/-- Witness for C10: a concrete successful `set_angle` returns `true`, and a
disabled controller's `set_angles` returns `false` with the disabled
disjunct. -/
theorem C10_witness :
    (Servo.set_angle noFail servoPos 10 true).map (fun r => r.1) = .ok true ∧
    ({ armBase with is_enabled := false }.is_enabled = false ∨
      ∃ p ∈ [(("shoulder", (10 : ℚ)))],
        lookup_servo { armBase with is_enabled := false }.servos p.1 = none) := by
  constructor
  · cases hres : Servo.set_angle noFail servoPos 10 true with
    | error u =>
      have e := Servo.set_angle_noFail servoPos 10 true (by rfl)
      rw [hres] at e
      cases e
    | ok r =>
      have h1 := C10_success_flags.1 noFail servoPos 10 true r hres
      show Except.ok r.1 = Except.ok true
      rw [h1]
  · exact C10_success_flags.2.2 noFail { armBase with is_enabled := false }
      [("shoulder", 10)] true (false, { armBase with is_enabled := false }, []) rfl rfl

/-- C2 (counterexample): on a controller owning one continuous joint
(channel 5, `stop_pulse = 1500`), `emergency_stop` emits only the
channel-disable command — no `stop_pulse` is issued first, contrary to the
claim. -/
theorem C2_counterexample :
    armCont.servos.map (fun p => (p.2.continuous, p.2.channel, p.2.stop_pulse))
      = [(true, 5, 1500)] ∧
    ArmController.emergency_stop noFail armCont
      = .ok ({ armCont with is_enabled := false }, [Ev.disableCh 5]) ∧
    Ev.pulse 5 1500 ∉ ([Ev.disableCh 5] : List Ev) := by
  refine ⟨rfl, by rfl, by decide⟩

/-- C2 (amended): `emergency_stop` only calls `disable()`: when no
channel-disable raises, it disables every joint's output channel in servo-map
order and clears the enabled flag; it issues no stop pulses. -/
theorem C2_amended_emergency_stop (o : PwmOracle) (c : ArmController)
    (h : ∀ p ∈ c.servos, o.disableFails p.2.channel = false) :
    c.emergency_stop o = .ok ({ c with is_enabled := false },
      c.servos.map (fun p => Ev.disableCh p.2.channel)) := by
  simp only [ArmController.emergency_stop, ArmController.disable]
  rw [ArmController.disable_go_map c.servos h]
  rfl

/-- Witness for C2 (amended) on the concrete one-joint controller. -/
theorem C2_amended_witness :
    ArmController.emergency_stop noFail armCont
      = .ok ({ armCont with is_enabled := false }, [Ev.disableCh 5]) := by
  have h := C2_amended_emergency_stop noFail armCont (fun p _ => rfl)
  rw [h]
  rfl

theorem except_map_ok {α β : Type} (f : α → β) (a : α) :
    (Except.ok a : Except Unit α).map f = .ok (f a) := rfl

theorem except_map_error {α β : Type} (f : α → β) :
    (Except.error () : Except Unit α).map f = .error () := rfl

theorem list_any_congr {α : Type} {p q : α → Bool} :
    ∀ {l : List α}, (∀ x ∈ l, p x = q x) → l.any p = l.any q := by
  intro l
  induction l with
  | nil => intro _; rfl
  | cons x rest ih =>
    intro h
    simp only [List.any_cons, h x (List.mem_cons_self _ _),
      ih (fun y hy => h y (List.mem_cons_of_mem _ hy))]

namespace ArmController

theorem set_angles_go_filter {o : PwmOracle} {v : Bool} :
    ∀ (angles : List (String × ℚ)) (c : ArmController),
    set_angles_go o v c angles =
      (set_angles_go o v c
        (angles.filter fun p => (lookup_servo c.servos p.1).isSome)).map
        (fun r => (r.1 && !(angles.any fun p => (lookup_servo c.servos p.1).isNone), r.2)) := by
  intro angles
  induction angles with
  | nil =>
    intro c
    simp [set_angles_go, except_map_ok]
  | cons hd rest ih =>
    obtain ⟨name, angle⟩ := hd
    intro c
    cases heq : lookup_servo c.servos name with
    | none =>
      have hfilter : List.filter (fun p => (lookup_servo c.servos p.1).isSome)
          ((name, angle) :: rest)
          = List.filter (fun p => (lookup_servo c.servos p.1).isSome) rest := by
        simp [List.filter_cons, heq]
      have hany : (((name, angle) :: rest).any
          fun p => (lookup_servo c.servos p.1).isNone) = true := by
        simp [heq]
      simp only [set_angles_go, heq]
      rw [hfilter, hany, ih]
      cases hx : set_angles_go o v c
          (List.filter (fun p => (lookup_servo c.servos p.1).isSome) rest) with
      | error e =>
        cases e
        simp [except_map_error, except_error_bind]
      | ok r =>
        simp [except_map_ok, except_ok_bind]
    | some servo =>
      have hfilter : List.filter (fun p => (lookup_servo c.servos p.1).isSome)
          ((name, angle) :: rest)
          = (name, angle) :: List.filter (fun p => (lookup_servo c.servos p.1).isSome) rest := by
        simp [List.filter_cons, heq]
      have hany : (((name, angle) :: rest).any fun p => (lookup_servo c.servos p.1).isNone)
          = (rest.any fun p => (lookup_servo c.servos p.1).isNone) := by
        simp [heq]
      rw [hfilter]
      simp only [set_angles_go, heq]
      rw [hany]
      cases hsa : Servo.set_angle o servo (c.calib_transform name angle) v with
      | error e =>
        cases e
        simp [except_map_error, except_error_bind]
      | ok t =>
        obtain ⟨b, s', ev⟩ := t
        simp only [except_ok_bind]
        have hpt : ∀ x ∈ rest,
            ((lookup_servo (update_servo c.servos name s') x.1).isSome : Bool)
            = (lookup_servo c.servos x.1).isSome :=
          fun x _ => lookup_servo_update c.servos name s' x.1
        have hptn : ∀ x ∈ rest,
            ((lookup_servo (update_servo c.servos name s') x.1).isNone : Bool)
            = (lookup_servo c.servos x.1).isNone := by
          intro x hx
          have h1 := hpt x hx
          cases h2 : lookup_servo (update_servo c.servos name s') x.1 <;>
            cases h3 : lookup_servo c.servos x.1 <;>
            simp_all
        have hih := ih { c with servos := update_servo c.servos name s' }
        rw [List.filter_congr hpt, list_any_congr hptn] at hih
        rw [hih]
        cases hgo : set_angles_go o v { c with servos := update_servo c.servos name s' }
            (List.filter (fun p => (lookup_servo c.servos p.1).isSome) rest) with
        | error e =>
          cases e
          simp [except_map_error, except_error_bind]
        | ok r2 =>
          simp [except_map_ok, except_ok_bind, Bool.and_assoc]

end ArmController

namespace ArmController

theorem plan_go_filter {o : PwmOracle} {speed : ℚ} :
    ∀ (angles : List (String × ℚ)) (c : ArmController),
    plan_go o speed c angles =
      plan_go o speed c (angles.filter fun p => (lookup_servo c.servos p.1).isSome) := by
  intro angles
  induction angles with
  | nil => intro c; rfl
  | cons hd rest ih =>
    obtain ⟨name, angle⟩ := hd
    intro c
    cases heq : lookup_servo c.servos name with
    | none =>
      have hfilter : List.filter (fun p => (lookup_servo c.servos p.1).isSome)
          ((name, angle) :: rest)
          = List.filter (fun p => (lookup_servo c.servos p.1).isSome) rest := by
        simp [List.filter_cons, heq]
      rw [hfilter]
      simp only [plan_go, heq]
      exact ih c
    | some servo =>
      have hfilter : List.filter (fun p => (lookup_servo c.servos p.1).isSome)
          ((name, angle) :: rest)
          = (name, angle) :: List.filter (fun p => (lookup_servo c.servos p.1).isSome) rest := by
        simp [List.filter_cons, heq]
      rw [hfilter]
      simp only [plan_go, heq]
      cases hga : servo.get_angle with
      | none =>
        cases hsa : Servo.set_angle o servo (c.calib_transform name angle) true with
        | error e =>
          cases e
          simp [except_error_bind]
        | ok t =>
          obtain ⟨b, s', ev⟩ := t
          simp only [except_ok_bind]
          have hpt : ∀ x ∈ rest,
              ((lookup_servo (update_servo c.servos name s') x.1).isSome : Bool)
              = (lookup_servo c.servos x.1).isSome :=
            fun x _ => lookup_servo_update c.servos name s' x.1
          have hih := ih { c with servos := update_servo c.servos name s' }
          rw [List.filter_congr hpt] at hih
          rw [hih]
      | some current =>
        rw [ih c]
  
theorem move_to_angles_filter (o : PwmOracle) (c : ArmController)
    (angles : List (String × ℚ)) (sp : Option ℚ) (bl : Bool) :
    c.move_to_angles o angles sp bl =
      c.move_to_angles o (angles.filter fun p => (lookup_servo c.servos p.1).isSome) sp bl := by
  by_cases he : c.is_enabled = false
  · simp [move_to_angles, he]
  · simp only [move_to_angles, he, Bool.false_eq_true, if_false]
    rw [plan_go_filter]

end ArmController

/-- C1 (amended): on an enabled arm, `set_angles` skips unknown joint names
but still applies every known entry exactly as if the unknown entries were
absent, and returns `false` overall whenever an unknown name is present;
`move_to_angles` also applies exactly the known entries, but an unknown name
leaves its return value unchanged (it is `true` when the known entries
succeed). -/
theorem C1_amended_partial_application (o : PwmOracle) (c : ArmController)
    (angles : List (String × ℚ)) (v : Bool) (sp : Option ℚ) (bl : Bool)
    (hen : c.is_enabled = true) :
    (c.set_angles o angles v =
      (c.set_angles o (angles.filter fun p => (lookup_servo c.servos p.1).isSome) v).map
        (fun r => (r.1 && !(angles.any fun p => (lookup_servo c.servos p.1).isNone), r.2))) ∧
    ((angles.any fun p => (lookup_servo c.servos p.1).isNone) = true →
      ∀ r, c.set_angles o angles v = .ok r → r.1 = false) ∧
    (c.move_to_angles o angles sp bl =
      c.move_to_angles o (angles.filter fun p => (lookup_servo c.servos p.1).isSome) sp bl) := by
  have hne : ¬(c.is_enabled = false) := by rw [hen]; exact fun h => Bool.noConfusion h
  refine ⟨?_, ?_, ArmController.move_to_angles_filter o c angles sp bl⟩
  · simp only [ArmController.set_angles, if_neg hne]
    exact ArmController.set_angles_go_filter angles c
  · intro hany r hr
    simp only [ArmController.set_angles, if_neg hne] at hr
    rw [ArmController.set_angles_go_filter] at hr
    cases hx : ArmController.set_angles_go o v c
        (angles.filter fun p => (lookup_servo c.servos p.1).isSome) with
    | error e => rw [hx] at hr; cases hr
    | ok r0 =>
      rw [hx, except_map_ok] at hr
      cases hr
      simp [hany]

/-- C1 (counterexample): on the enabled one-joint arm `armBase`, a
`move_to_angles` call containing the unknown name `"foo"` and the known name
`"shoulder"` returns `true`, not `false` — `move_to_angles` does not fold
unknown names into its success flag. -/
theorem C1_counterexample :
    armBase.is_enabled = true ∧
    lookup_servo armBase.servos "foo" = none ∧
    (lookup_servo armBase.servos "shoulder").isSome = true ∧
    (ArmController.move_to_angles noFail armBase [("foo", 10), ("shoulder", 0)] (some 30)
        false).map (fun r => r.1) = .ok true := by
  refine ⟨rfl, by decide, by decide, ?_⟩
  rw [ArmController.move_to_angles_filter]
  have hf : List.filter (fun p => (lookup_servo armBase.servos p.1).isSome)
      [("foo", (10 : ℚ)), ("shoulder", 0)] = [("shoulder", (0 : ℚ))] := by decide
  rw [hf]
  have hsh : lookup_servo armBase.servos "shoulder" = some servoPos := by decide
  have htr : armBase.calib_transform "shoulder" 0 = 0 := by
    simp [ArmController.calib_transform, apply_offset_invert, armBase]
  have hga : servoPos.get_angle = some 0 := rfl
  have hplan : ArmController.plan_go noFail 30 armBase [("shoulder", (0 : ℚ))]
      = .ok (0, [(servoPos, "shoulder", 0, 0)], armBase, []) := by
    simp only [ArmController.plan_go, hsh, htr, hga, except_ok_bind]
    norm_num
  have hc0 : servoPos.clamp_angle 0 = 0 := by decide
  have e := Servo.set_angle_noFail servoPos 0 true (by rfl)
  rw [if_pos rfl, hc0] at e
  have hset : ArmController.set_moves noFail armBase [(servoPos, "shoulder", (0 : ℚ), (0 : ℚ))]
      = .ok
        ({ armBase with
            servos := update_servo armBase.servos "shoulder"
              { servoPos with current_angle := some 0, target_angle := some 0 } },
         [Ev.pulse servoPos.channel
            (servoPos.angle_to_pulse (servoPos.apply_calibration 0))]) := by
    simp only [ArmController.set_moves, e, except_ok_bind]
    rfl
  simp only [ArmController.move_to_angles]
  rw [if_neg (by decide : ¬(armBase.is_enabled = false))]
  have hmax : max (1 : ℚ) 30 = 30 := by norm_num
  simp only [hmax, hplan, except_ok_bind]
  rw [if_neg (by decide : ¬([(servoPos, "shoulder", (0:ℚ), (0:ℚ))].isEmpty = true))]
  rw [if_pos (le_refl (0 : ℚ)), hset, except_ok_bind]
  rfl

/-- Witness for C1 (amended) at a concrete call: `set_angles` with only the
unknown name `"foo"` on the enabled arm returns `false` while doing nothing
else. -/
theorem C1_amended_witness :
    ArmController.set_angles noFail armBase [("foo", (10 : ℚ))] true
      = .ok (false, armBase, []) := by
  have h := (C1_amended_partial_application noFail armBase [("foo", 10)] true none false rfl).1
  rw [h]
  decide

namespace ArmController

/-- Evaluation of the first `move_to_angles` loop on a two-joint request when
both joints are known position joints with known current angles. -/
theorem plan_go_pair (o : PwmOracle) (c : ArmController) (n1 n2 : String)
    (s1 s2 : Servo) (cur1 cur2 a1 a2 sp t1 t2 d1 d2 mt : ℚ)
    (hserv : c.servos = [(n1, s1), (n2, s2)]) (hne : n1 ≠ n2)
    (hc1 : s1.continuous = false) (hc2 : s2.continuous = false)
    (hcur1 : s1.current_angle = some cur1) (hcur2 : s2.current_angle = some cur2)
    (hsp : 1 ≤ sp)
    (ht1 : t1 = c.calib_transform n1 a1) (ht2 : t2 = c.calib_transform n2 a2)
    (hd1 : d1 = |t1 - cur1|) (hd2 : d2 = |t2 - cur2|)
    (hmt : mt = max (d1 / sp) (d2 / sp)) :
    plan_go o sp c [(n1, a1), (n2, a2)]
      = .ok (mt, [(s1, n1, t1, d1), (s2, n2, t2, d2)], c, []) := by
  have hl1 : lookup_servo c.servos n1 = some s1 := by
    rw [hserv]
    simp [lookup_servo]
  have hl2 : lookup_servo c.servos n2 = some s2 := by
    rw [hserv]
    simp [lookup_servo, hne]
  have hga1 : s1.get_angle = some cur1 := by
    simp [Servo.get_angle, hc1, hcur1]
  have hga2 : s2.get_angle = some cur2 := by
    simp [Servo.get_angle, hc2, hcur2]
  have hsp0 : sp > 0 := by linarith
  simp only [plan_go, hl1, hl2, hga1, hga2, except_ok_bind, if_pos hsp0]
  subst ht1 ht2 hd1 hd2 hmt
  have h2 : (0 : ℚ) ≤ |c.calib_transform n2 a2 - cur2| / sp :=
    div_nonneg (abs_nonneg _) (le_of_lt hsp0)
  rw [max_eq_left h2]

end ArmController

/-- C5 (counterexample): with two position joints at current angle 0, targets
10 and 1 and speed 1, the coordinator computes `max_time = 10`, but the
second joint's derived `servo_speed` is `max(1, 1/10) = 1`, not
`delta/max_time = 1/10` — the floor at 1.0 breaks the claimed equality. -/
theorem C5_counterexample :
    ArmController.plan_go noFail 1 armTwo [("x", 10), ("y", 1)]
      = .ok (10, [(servoPos, "x", 10, 10), ({ servoPos with channel := 1 }, "y", 1, 1)],
             armTwo, []) ∧
    ArmController.servo_speed 1 10 1 = 1 ∧
    ¬(((1 : ℚ) / 10) = 1) := by
  refine ⟨?_, ?_, by norm_num⟩
  · have hx : armTwo.calib_transform "x" 10 = 10 := by
      simp [ArmController.calib_transform]
    have hy : armTwo.calib_transform "y" 1 = 1 := by
      simp [ArmController.calib_transform]
    have h := ArmController.plan_go_pair noFail armTwo "x" "y" servoPos
      { servoPos with channel := 1 } 0 0 10 1 1 10 1 10 1 10 rfl (by decide)
      rfl rfl rfl rfl (by norm_num) (by rw [hx]) (by rw [hy])
      (by norm_num) (by norm_num) (by norm_num)
    exact h
  · simp only [ArmController.servo_speed]
    rw [if_pos (by norm_num : (10 : ℚ) > 0)]
    norm_num

/-- C5 (amended): for a `move_to_angles` call over two known position joints
with known current angles, the coordinator computes
`max_time = max(delta_1/speed, delta_2/speed)` and derives each joint's speed
as `servo_speed = max(1, delta_i/max_time)`; whenever `delta_i/max_time ≥ 1`
for a joint, its `servo_speed` equals `delta_i/max_time`, and when that holds
for both joints the speeds are proportional to the deltas and both nominal
move durations `delta_i / servo_speed_i` equal `max_time`. -/
theorem C5_amended_sync (o : PwmOracle) (c : ArmController) (n1 n2 : String)
    (s1 s2 : Servo) (cur1 cur2 a1 a2 sp t1 t2 d1 d2 mt : ℚ)
    (hserv : c.servos = [(n1, s1), (n2, s2)]) (hne : n1 ≠ n2)
    (hc1 : s1.continuous = false) (hc2 : s2.continuous = false)
    (hcur1 : s1.current_angle = some cur1) (hcur2 : s2.current_angle = some cur2)
    (hsp : 1 ≤ sp) (hd12 : d1 ≠ d2)
    (ht1 : t1 = c.calib_transform n1 a1) (ht2 : t2 = c.calib_transform n2 a2)
    (hd1 : d1 = |t1 - cur1|) (hd2 : d2 = |t2 - cur2|)
    (hmt : mt = max (d1 / sp) (d2 / sp)) :
    ArmController.plan_go o sp c [(n1, a1), (n2, a2)]
      = .ok (mt, [(s1, n1, t1, d1), (s2, n2, t2, d2)], c, []) ∧
    (1 ≤ d1 / mt → ArmController.servo_speed sp mt d1 = d1 / mt) ∧
    (1 ≤ d2 / mt → ArmController.servo_speed sp mt d2 = d2 / mt) ∧
    (1 ≤ d1 / mt → 1 ≤ d2 / mt →
      ArmController.servo_speed sp mt d1 * d2 = ArmController.servo_speed sp mt d2 * d1 ∧
      d1 / ArmController.servo_speed sp mt d1 = mt ∧
      d2 / ArmController.servo_speed sp mt d2 = mt) := by
  have hplan := ArmController.plan_go_pair o c n1 n2 s1 s2 cur1 cur2 a1 a2 sp t1 t2 d1 d2 mt
    hserv hne hc1 hc2 hcur1 hcur2 hsp ht1 ht2 hd1 hd2 hmt
  have hd1n : 0 ≤ d1 := hd1 ▸ abs_nonneg _
  have hd2n : 0 ≤ d2 := hd2 ▸ abs_nonneg _
  have key : ∀ d : ℚ, 0 ≤ d → 1 ≤ d / mt → ArmController.servo_speed sp mt d = d / mt := by
    intro d hdn hdl
    have hmt0 : 0 < mt := by
      rcases lt_trichotomy mt 0 with h | h | h
      · have : d / mt ≤ 0 := div_nonpos_of_nonneg_of_nonpos hdn (le_of_lt h)
        linarith
      · rw [h, div_zero] at hdl
        linarith
      · exact h
    simp only [ArmController.servo_speed]
    rw [if_pos hmt0, max_eq_right hdl]
  refine ⟨hplan, key d1 hd1n, key d2 hd2n, fun h1 h2 => ?_⟩
  have hmt0 : 0 < mt := by
    rcases lt_trichotomy mt 0 with h | h | h
    · have : d1 / mt ≤ 0 := div_nonpos_of_nonneg_of_nonpos hd1n (le_of_lt h)
      linarith
    · rw [h, div_zero] at h1
      linarith
    · exact h
  have hd1p : 0 < d1 := by
    by_contra hcon
    push_neg at hcon
    have he : d1 = 0 := le_antisymm hcon hd1n
    rw [he, zero_div] at h1
    linarith
  have hd2p : 0 < d2 := by
    by_contra hcon
    push_neg at hcon
    have he : d2 = 0 := le_antisymm hcon hd2n
    rw [he, zero_div] at h2
    linarith
  rw [key d1 hd1n h1, key d2 hd2n h2]
  refine ⟨by field_simp; ring, ?_, ?_⟩
  · rw [div_div_eq_mul_div, mul_comm, mul_div_assoc, div_self (ne_of_gt hd1p), mul_one]
  · rw [div_div_eq_mul_div, mul_comm, mul_div_assoc, div_self (ne_of_gt hd2p), mul_one]

/-- Witness for C5 (amended): targets 10 and 5 from current angle 0 at speed
2 give `max_time = 5`, derived speeds 2 and 1, and both nominal durations
equal 5. -/
theorem C5_amended_witness :
    ArmController.plan_go noFail 2 armTwo [("x", 10), ("y", 5)]
      = .ok (5, [(servoPos, "x", 10, 10), ({ servoPos with channel := 1 }, "y", 5, 5)],
             armTwo, []) ∧
    ArmController.servo_speed 2 5 10 = 10 / 5 ∧
    ArmController.servo_speed 2 5 5 = 5 / 5 ∧
    (10 : ℚ) / ArmController.servo_speed 2 5 10 = 5 ∧
    (5 : ℚ) / ArmController.servo_speed 2 5 5 = 5 := by
  have hx : armTwo.calib_transform "x" 10 = 10 := by
    simp [ArmController.calib_transform]
  have hy : armTwo.calib_transform "y" 5 = 5 := by
    simp [ArmController.calib_transform]
  have h := C5_amended_sync noFail armTwo "x" "y" servoPos { servoPos with channel := 1 }
    0 0 10 5 2 10 5 10 5 5 rfl (by decide) rfl rfl rfl rfl (by norm_num) (by norm_num)
    (by rw [hx]) (by rw [hy]) (by norm_num) (by norm_num) (by norm_num)
  obtain ⟨hp, hs1, hs2, hb⟩ := h
  have hb' := hb (by norm_num) (by norm_num)
  refine ⟨hp, ?_, ?_, ?_, ?_⟩
  · rw [hs1 (by norm_num)]
  · rw [hs2 (by norm_num)]
  · rw [hs1 (by norm_num)]
    norm_num
  · rw [hs2 (by norm_num)]
    norm_num
